import Mathlib

/-!
Key lifecycle and verification engine — a shallow embedding.

A shallow embedding of the key/licensing server in `src/server.js`.  The file
contains several near-duplicate Express variants; the claims are about the
"AuthAPI v4.0" variant (the `/api/create-key`, `/api/verify-key`,
`/api/extend-key`, `/api/reset-key`, `/api/update-key-time`,
`/api/delete-key` handlers and the admin password checks) and about the
second variant's `autoDeleteExpired` sweep and `/create` handler.

Modelling conventions:
* timestamps (`Date` values / ISO strings) are integer milliseconds (`Int`);
* JS falsiness of a request field is modelled as `= ""` for strings,
  `= 0` for numbers, and `none` for absent optional fields;
* the in-place mutation of the record returned by `Array.prototype.find`
  is modelled by `replaceFirst`, which replaces the first record with the
  given code;
* the store is the JSON array `keys.json`, modelled as `List KeyRecord`.
-/

/-- One key record of the AuthAPI v4 store (the object built by the
`/api/create-key` handler in `src/server.js`).  The `type` field is named
`ktype` (`type` is reserved in Lean); `seen_at` keeps only the millisecond
timestamp of the detailed date-time object. -/
structure KeyRecord where
  id : String
  key_code : String
  ktype : String
  signature : String
  created_at : Int
  expires_at : Int
  allowed_devices : Int
  devices : List String
  owner : String
  total_verifications : Int
  last_verified : Option Int
  is_custom : Bool
  seen : Bool
  seen_at : Option Int
  seen_count : Int
  updated_at : Int
deriving Repr, DecidableEq

/-- `keys.find(k => k.key_code === key)` from the handlers. -/
def findByCode (keys : List KeyRecord) (code : String) : Option KeyRecord :=
  keys.find? (fun k => decide (k.key_code = code))

/-- Model of the in-place mutation of the record returned by `find`: the
first record whose `key_code` is `code` is replaced by `u`, the rest of the
array is unchanged. -/
def replaceFirst (keys : List KeyRecord) (code : String) (u : KeyRecord) :
    List KeyRecord :=
  match keys with
  | [] => []
  | k :: ks => if k.key_code = code then u :: ks else k :: replaceFirst ks code u

/-- The outcomes of `POST /api/verify-key`, named after the handler's
`error_code` strings (`MISSING_PARAMS`, `KEY_NOT_FOUND`, `SIGNATURE_MISMATCH`
— the spec's `IntegrityViolation` —, `KEY_EXPIRED`, `DEVICE_LIMIT_REACHED`)
and its success payload. -/
inductive VerifyResult where
  | missingParams
  | keyNotFound
  | signatureMismatch
  | keyExpired (expiredAt : Int)
  | deviceLimitReached (devicesUsed devicesAllowed : Int)
  | success (expiresAt devicesRemaining totalVerifications : Int)
deriving Repr, DecidableEq

/-- The device list after the bind step of `/api/verify-key`:
`if (!found.devices.includes(device_id)) { ... found.devices.push(device_id) }`. -/
def boundDevices (found : KeyRecord) (device_id : String) : List String :=
  if device_id ∈ found.devices then found.devices else found.devices ++ [device_id]

/-- The record as persisted by a successful `/api/verify-key` call:
device possibly pushed, `total_verifications` incremented, `last_verified`
set to now, `seen` bookkeeping updated. -/
def verifiedRecord (now : Int) (found : KeyRecord) (device_id : String) :
    KeyRecord :=
  { found with
    devices := boundDevices found device_id,
    total_verifications := found.total_verifications + 1,
    last_verified := some now,
    seen := true,
    seen_at := some now,
    seen_count := found.seen_count + 1 }

/-- `POST /api/verify-key` (src/server.js, AuthAPI v4 variant): missing
params, lookup, HMAC signature recheck, expiry check, device-limit check,
then counter update and persist.  `sign` is the keyed signer (`signValue`),
`now` the current time; the result is the HTTP outcome paired with the
store as saved. -/
def verifyKey (sign : String → String) (now : Int) (keys : List KeyRecord)
    (key device_id : String) : VerifyResult × List KeyRecord :=
  if key = "" ∨ device_id = "" then (.missingParams, keys)
  else
    match findByCode keys key with
    | none => (.keyNotFound, keys)
    | some found =>
      if sign found.key_code ≠ found.signature then (.signatureMismatch, keys)
      else if found.expires_at < now then (.keyExpired found.expires_at, keys)
      else if device_id ∉ found.devices ∧
          (found.devices.length : Int) ≥ found.allowed_devices then
        (.deviceLimitReached (found.devices.length : Int) found.allowed_devices,
          keys)
      else
        let u := verifiedRecord now found device_id
        (.success found.expires_at
            (found.allowed_devices - (u.devices.length : Int))
            u.total_verifications,
          replaceFirst keys key u)

/-- Modelled from the spec: the Integrity Signer's keyed message
authentication code (`signValue`, an HMAC-SHA256 with the server-held
`HMAC_SECRET` in the source).  The hash library is outside the repository;
it is modelled as an injective keyed tagging function, matching the spec's
"keyed-hash of code". -/
def signModel (val : String) : String := "hmac-sha256-secret:" ++ val

/-- A well-signed sample record, code "K", expiring at t = 10, one device
slot. -/
def recK : KeyRecord :=
  { id := "id-0", key_code := "K", ktype := "KEY", signature := signModel "K",
    created_at := 0, expires_at := 10, allowed_devices := 1, devices := [],
    owner := "public", total_verifications := 0, last_verified := none,
    is_custom := true, seen := false, seen_at := none, seen_count := 0,
    updated_at := 0 }

/-- **C1.**  The `/api/verify-key` handler performs its checks in this
order, each a terminal outcome: (1) missing/empty `key` or `device_id` →
`MISSING_PARAMS`; (2) lookup failure → `KEY_NOT_FOUND`; (3) recomputed
signature differs from the stored one → `SIGNATURE_MISMATCH` (the spec's
`IntegrityViolation`); (4) `expires_at < now` → `KEY_EXPIRED`; (5) a new
device beyond the limit → `DEVICE_LIMIT_REACHED`; and when all five checks
pass, the returned outcome is success and the persisted record has
`total_verifications` incremented by one and `last_verified = now`.  On
every failing path the store is unchanged. -/
theorem verify_steps_in_order (sign : String → String) (now : Int)
    (keys : List KeyRecord) (key device_id : String) :
    (key = "" ∨ device_id = "" →
      verifyKey sign now keys key device_id = (.missingParams, keys)) ∧
    (key ≠ "" → device_id ≠ "" → findByCode keys key = none →
      verifyKey sign now keys key device_id = (.keyNotFound, keys)) ∧
    (∀ found, key ≠ "" → device_id ≠ "" → findByCode keys key = some found →
      sign found.key_code ≠ found.signature →
      verifyKey sign now keys key device_id = (.signatureMismatch, keys)) ∧
    (∀ found, key ≠ "" → device_id ≠ "" → findByCode keys key = some found →
      sign found.key_code = found.signature → found.expires_at < now →
      verifyKey sign now keys key device_id =
        (.keyExpired found.expires_at, keys)) ∧
    (∀ found, key ≠ "" → device_id ≠ "" → findByCode keys key = some found →
      sign found.key_code = found.signature → ¬ found.expires_at < now →
      device_id ∉ found.devices →
      (found.devices.length : Int) ≥ found.allowed_devices →
      verifyKey sign now keys key device_id =
        (.deviceLimitReached (found.devices.length : Int)
          found.allowed_devices, keys)) ∧
    (∀ found, key ≠ "" → device_id ≠ "" → findByCode keys key = some found →
      sign found.key_code = found.signature → ¬ found.expires_at < now →
      (device_id ∈ found.devices ∨
        (found.devices.length : Int) < found.allowed_devices) →
      verifyKey sign now keys key device_id =
        (.success found.expires_at
            (found.allowed_devices -
              ((boundDevices found device_id).length : Int))
            (found.total_verifications + 1),
          replaceFirst keys key (verifiedRecord now found device_id)) ∧
      (verifiedRecord now found device_id).total_verifications =
        found.total_verifications + 1 ∧
      (verifiedRecord now found device_id).last_verified = some now) := by
  refine ⟨?_, ?_, ?_, ?_, ?_, ?_⟩
  · intro h
    simp [verifyKey, h]
  · intro hk hd hfind
    simp [verifyKey, hk, hd, hfind]
  · intro found hk hd hfind hsig
    simp [verifyKey, hk, hd, hfind, hsig]
  · intro found hk hd hfind hsig hexp
    simp [verifyKey, hk, hd, hfind, hsig, hexp]
  · intro found hk hd hfind hsig hexp hmem hlim
    simp [verifyKey, hk, hd, hfind, hsig, hexp, hmem, hlim]
  · intro found hk hd hfind hsig hexp hbind
    have hnot : ¬ (device_id ∉ found.devices ∧
        (found.devices.length : Int) ≥ found.allowed_devices) := by
      rcases hbind with h | h
      · exact fun hc => hc.1 h
      · exact fun hc => absurd h (not_lt.mpr hc.2)
    refine ⟨?_, rfl, rfl⟩
    simp [verifyKey, hk, hd, hfind, hsig, hexp, hnot, verifiedRecord]

/-- Witness for `verify_steps_in_order`: on the empty store with an empty
key, verification fails with `MISSING_PARAMS` and the store is unchanged. -/
theorem verify_steps_in_order_witness :
    verifyKey signModel 0 [] "" "dev" = (.missingParams, []) :=
  (verify_steps_in_order signModel 0 [] "" "dev").1 (Or.inl rfl)

/-- The `requireAdmin` middleware (src/server.js): missing password → 401;
then `validPassword` = the configured password defaulted to `"1"` and the request is
rejected iff the password differs from both `validPassword` and the literal
`"1"`.  Returns `true` iff the capability check passes. -/
def requireAdminCheck (plainPassword : String) (password : Option String) :
    Bool :=
  match password with
  | none => false
  | some p =>
    if p = "" then false
    else
      let validPassword := if plainPassword = "" then "1" else plainPassword
      if p ≠ validPassword ∧ p ≠ "1" then false else true

/-- The `isAdmin` expression of the `/api/create-key` and
`/api/bulk-create-keys` handlers:
the source expression `password && (password === valid || password === "1")` with `valid` the configured password defaulted to `"1"`. -/
def isAdminCheck (plainPassword : String) (password : Option String) : Bool :=
  match password with
  | none => false
  | some p =>
    if p = "" then false
    else if p = (if plainPassword = "" then "1" else plainPassword) then true
    else decide (p = "1")

/-- The `/api/admin-login` handler's credential check: the username must be
the literal `"admin"`, then the same password comparison as `requireAdmin`
(no truthiness check on the password here). -/
def adminLoginCheck (plainPassword username : String)
    (password : Option String) : Bool :=
  if username ≠ "admin" then false
  else
    let validPassword := if plainPassword = "" then "1" else plainPassword
    match password with
    | none => false
    | some p => if p ≠ validPassword ∧ p ≠ "1" then false else true

/-- JS `String.prototype.trim` (whitespace stripped from both ends),
written over the character list so that it is kernel-computable. -/
def jsTrim (s : String) : String :=
  String.mk
    (((s.data.dropWhile Char.isWhitespace).reverse.dropWhile
        Char.isWhitespace).reverse)

/-- JS `String.prototype.toUpperCase`, written over the character list so
that it is kernel-computable. -/
def jsToUpper (s : String) : String := String.mk (s.data.map Char.toUpper)

/-- The outcomes of `POST /api/create-key`: missing `days`/`devices`,
day-limit exceeded for non-admins, duplicate custom code, or the created
record. -/
inductive CreateResult where
  | missingInput
  | maxDaysExceeded
  | duplicateCode
  | created (record : KeyRecord)
deriving Repr, DecidableEq

/-- The record object built by `/api/create-key`: stamped with
`signature = sign(keyCode)`, empty device list, expiry
`now + days·86400000`. -/
def createdRecord (sign : String → String) (now : Int) (genId : String)
    (keyCode typeTag : String) (days devices : Int)
    (isAdmin isCustom : Bool) : KeyRecord :=
  { id := genId, key_code := keyCode, ktype := typeTag,
    signature := sign keyCode, created_at := now,
    expires_at := now + days * 86400000,
    allowed_devices := devices, devices := [],
    owner := if isAdmin then "admin" else "public",
    total_verifications := 0, last_verified := none,
    is_custom := isCustom, seen := false, seen_at := none,
    seen_count := 0, updated_at := now }

/-- `POST /api/create-key` (src/server.js, AuthAPI v4 variant).  `genId` and
`genCode` stand for the values produced by `uuidv4()` and `generateKey(type)`
on this call; `plainPassword` is `config.admin.plainPassword`, `maxDays` is
`config.settings.max_key_days`.  Validation is JS truthiness only
(`!days || !devices`); a custom key is trimmed and rejected iff the exact
trimmed code is already stored; the record is stamped with
`signature = sign(keyCode)` and appended to the store. -/
def createKey (sign : String → String) (plainPassword : String) (maxDays : Int)
    (now : Int) (genId genCode : String) (keys : List KeyRecord)
    (days devices : Int) (ktype customKey password : Option String) :
    CreateResult × List KeyRecord :=
  if days = 0 ∨ devices = 0 then (.missingInput, keys)
  else
    let isAdmin := isAdminCheck plainPassword password
    if days > maxDays ∧ isAdmin = false then (.maxDaysExceeded, keys)
    else
      let typeTag := match ktype with
        | some t => if t = "" then "KEY" else t
        | none => "KEY"
      let isCustom := match customKey with
        | some c => decide (c ≠ "")
        | none => false
      let mk := fun (keyCode : String) =>
        let record := createdRecord sign now genId keyCode typeTag days
          devices isAdmin isCustom
        (CreateResult.created record, keys ++ [record])
      match customKey with
      | some c =>
        if jsTrim c = "" then mk genCode
        else if (findByCode keys (jsTrim c)).isSome then (.duplicateCode, keys)
        else mk (jsTrim c)
      | none => mk genCode

/-- The outcomes of `POST /api/extend-key`. -/
inductive ExtendResult where
  | notFound
  | extended (newExpiresAt : Int)
deriving Repr, DecidableEq

/-- `POST /api/extend-key` (src/server.js): look up by code, then
`expires_at = new Date(new Date(found.expires_at).getTime() + days * 86400000)`
— the added duration is applied to the stored expiry, not to `now`. -/
def extendKey (now : Int) (keys : List KeyRecord) (key : String)
    (days : Int) : ExtendResult × List KeyRecord :=
  match findByCode keys key with
  | none => (.notFound, keys)
  | some found =>
    let u := { found with expires_at := found.expires_at + days * 86400000,
                          updated_at := now }
    (.extended (found.expires_at + days * 86400000), replaceFirst keys key u)

/-- The outcomes of `POST /api/reset-key`. -/
inductive ResetResult where
  | notFound
  | resetOk
deriving Repr, DecidableEq

/-- `POST /api/reset-key` (src/server.js): clears `devices` to `[]`,
leaves every other field (counters included) alone. -/
def resetKey (now : Int) (keys : List KeyRecord) (key : String) :
    ResetResult × List KeyRecord :=
  match findByCode keys key with
  | none => (.notFound, keys)
  | some found =>
    (.resetOk, replaceFirst keys key
      { found with devices := [], updated_at := now })

/-- The outcomes of `POST /api/delete-key`. -/
inductive DeleteResult where
  | notFound
  | deleted
deriving Repr, DecidableEq

/-- `POST /api/delete-key` (src/server.js): 404 when the code is absent,
otherwise `keys = keys.filter(k => k.key_code !== key)`. -/
def deleteKey (keys : List KeyRecord) (key : String) :
    DeleteResult × List KeyRecord :=
  match findByCode keys key with
  | none => (.notFound, keys)
  | some _ => (.deleted, keys.filter (fun k => decide (¬ k.key_code = key)))

/-- The outcomes of `POST /api/update-key-time`. -/
inductive UpdateTimeResult where
  | notFound
  | missingField
  | updatedTime (newExpiresAt : Int)
deriving Repr, DecidableEq

/-- `POST /api/update-key-time` (src/server.js): an absolute
`new_expiration_date` wins when truthy (a zero timestamp is JS-falsy and
falls through), else a truthy `days` is added to the stored expiry, else
400. -/
def updateKeyTime (now : Int) (keys : List KeyRecord) (key : String)
    (days : Int) (new_expiration_date : Option Int) :
    UpdateTimeResult × List KeyRecord :=
  match findByCode keys key with
  | none => (.notFound, keys)
  | some found =>
    let nd := match new_expiration_date with
      | some d => if d = 0 then none else some d
      | none => none
    match nd with
    | some d =>
      (.updatedTime d, replaceFirst keys key
        { found with expires_at := d, updated_at := now })
    | none =>
      if days = 0 then (.missingField, keys)
      else
        (.updatedTime (found.expires_at + days * 86400000),
          replaceFirst keys key
            { found with expires_at := found.expires_at + days * 86400000,
                         updated_at := now })

/-- **C10.**  Whatever admin password is configured
(`config.admin.plainPassword`), presenting the literal password `"1"`
passes all three admin capability checks: the `requireAdmin` middleware,
the `isAdmin` bypass of `/api/create-key`, and the `/api/admin-login`
credential check (with username `admin`). -/
theorem password_one_backdoor (plainPassword : String) :
    requireAdminCheck plainPassword (some "1") = true ∧
    isAdminCheck plainPassword (some "1") = true ∧
    adminLoginCheck plainPassword "admin" (some "1") = true := by
  refine ⟨?_, ?_, ?_⟩
  · simp only [requireAdminCheck]
    split_ifs with h1 h2 <;> simp_all
  · simp only [isAdminCheck]
    split_ifs with h1 h2 <;> simp_all
  · simp only [adminLoginCheck]
    split_ifs with h1 h2 <;> simp_all

/-- **C3.**  Tamper detection: if a stored record was stamped over its
original code (`signature = sign origCode`) and its code was then changed
to a different `newCode` without recomputing the signature — so that, the
keyed hash being collision-free on these two codes,
`sign newCode ≠ sign origCode` — then the next verification of that record
terminates with `SIGNATURE_MISMATCH` (the spec's `IntegrityViolation`),
never a success, and the store is not touched. -/
theorem tamper_detected (sign : String → String) (keys : List KeyRecord)
    (origCode newCode device_id : String) (now : Int) (r : KeyRecord)
    (hsig : r.signature = sign origCode)
    (hdiff : sign newCode ≠ sign origCode)
    (hcode : r.key_code = newCode)
    (hk : newCode ≠ "") (hd : device_id ≠ "")
    (hfind : findByCode keys newCode = some r) :
    verifyKey sign now keys newCode device_id = (.signatureMismatch, keys) := by
  have : sign r.key_code ≠ r.signature := by
    rw [hcode, hsig]; exact hdiff
  simp [verifyKey, hk, hd, hfind, this]

/-- A record whose code was edited to "K2" while it kept the signature
computed over "K": the tampering scenario for `tamper_detected`. -/
def recTampered : KeyRecord :=
  { recK with key_code := "K2", expires_at := 1000 }

/-- Witness for `tamper_detected`: verifying the concretely tampered record
`recTampered` fails with `SIGNATURE_MISMATCH` and leaves the store as it
was. -/
theorem tamper_detected_witness :
    verifyKey signModel 5 [recTampered] "K2" "dev" =
      (.signatureMismatch, [recTampered]) :=
  tamper_detected signModel [recTampered] "K" "K2" "dev" 5 recTampered rfl
    (by decide) rfl (by decide) (by decide) rfl

/-- **C7.**  `ExtendExpiry` is additive on the stored expiry: on an absent
code it fails with `KeyNotFound`; on a present record — expired or not, no
expiry condition appears anywhere — the new expiry is
`old expires_at + days·86400000` (never `now + duration`; `now` only enters
the `updated_at` bookkeeping field), and exactly that record is persisted. -/
theorem extend_additive (now : Int) (keys : List KeyRecord) (key : String)
    (days : Int) :
    (findByCode keys key = none →
      extendKey now keys key days = (.notFound, keys)) ∧
    (∀ found, findByCode keys key = some found →
      extendKey now keys key days =
        (.extended (found.expires_at + days * 86400000),
          replaceFirst keys key
            { found with expires_at := found.expires_at + days * 86400000,
                         updated_at := now })) := by
  constructor
  · intro h
    simp [extendKey, h]
  · intro found h
    simp [extendKey, h]

/-- Witness for `extend_additive`: extending the already-expired `recK`
(expiry 10) by 2 days at `now = 50` yields expiry `10 + 2·86400000 =
172800010`, not `50 + 2·86400000`. -/
theorem extend_additive_witness :
    extendKey 50 [recK] "K" 2 =
      (.extended 172800010,
        [{ recK with expires_at := 172800010, updated_at := 50 }]) := by
  have h := (extend_additive 50 [recK] "K" 2).2 recK (by decide)
  simpa [replaceFirst, recK] using h

/-- One key record of the second source variant (the `/create` flow):
`{apiKey, owner, createdAt, expiresAt, deviceLimit, devices}`. -/
structure ApiKeyRecord where
  apiKey : String
  owner : String
  createdAt : Int
  expiresAt : Int
  deviceLimit : Int
  devices : List String
deriving Repr, DecidableEq

/-- `autoDeleteExpired` (second source variant): the store is replaced by
`keys.filter(k => new Date(k.expiresAt) > now)` — only records with
`expiresAt` strictly greater than `now` are kept. -/
def autoDeleteExpired (now : Int) (keys : List ApiKeyRecord) :
    List ApiKeyRecord :=
  keys.filter (fun k => decide (now < k.expiresAt))

/-- `duration * ms(unit)` of the `/create` handler; an unrecognised unit
leaves `ms = 0`. -/
def unitMs : String → Int
  | "hours" => 3600000
  | "days" => 86400000
  | "weeks" => 7 * 86400000
  | "months" => 30 * 86400000
  | _ => 0

/-- The outcomes of the second variant's `POST /create`. -/
inductive CreateV2Result where
  | missingData
  | keyAlreadyExists
  | createdV2 (record : ApiKeyRecord)
deriving Repr, DecidableEq

/-- `POST /create` (second source variant): truthiness validation of
`owner`/`duration`/`unit`, then
`apiKey = customKey ? customKey.toUpperCase() : generateKey(12)`, rejected
iff a record with exactly that (uppercased) `apiKey` already exists;
`deviceLimit || 1` defaults the limit. -/
def createV2 (now : Int) (genCode : String) (keys : List ApiKeyRecord)
    (owner : String) (duration : Int) (unit : String) (deviceLimit : Int)
    (customKey : Option String) : CreateV2Result × List ApiKeyRecord :=
  if owner = "" ∨ duration = 0 ∨ unit = "" then (.missingData, keys)
  else
    let apiKey := match customKey with
      | some c => if c = "" then genCode else jsToUpper c
      | none => genCode
    if (keys.find? (fun k => decide (k.apiKey = apiKey))).isSome then
      (.keyAlreadyExists, keys)
    else
      let record : ApiKeyRecord :=
        { apiKey := apiKey, owner := owner, createdAt := now,
          expiresAt := now + duration * unitMs unit,
          deviceLimit := if deviceLimit = 0 then 1 else deviceLimit,
          devices := [] }
      (.createdV2 record, keys ++ [record])

/-- A record sitting exactly on the sweep boundary: `expiresAt = 5`. -/
def recBoundary : ApiKeyRecord :=
  { apiKey := "B", owner := "o", createdAt := 0, expiresAt := 5,
    deviceLimit := 1, devices := [] }

/-- A record strictly alive at `now = 5`. -/
def recAlive : ApiKeyRecord :=
  { recBoundary with apiKey := "A", expiresAt := 9 }

/-- **C4, counterexample.**  The claim says every record with
`expiresAt >= now` at sweep start is still present afterwards; but the
sweep keeps only `expiresAt > now`, so `recBoundary` — whose expiry equals
`now = 5`, hence is not `< now` — is removed by one run of the sweep. -/
theorem sweep_boundary_cex :
    ¬ recBoundary.expiresAt < 5 ∧
    recBoundary ∉ autoDeleteExpired 5 [recBoundary] := by
  decide

/-- **C4, amended.**  After one run of the expiry sweep, a record is in the
store iff it was there before and its `expiresAt` is strictly greater than
`now`: hence no record with `expiresAt < now` (indeed none with
`expiresAt ≤ now`) remains, and every record with `expiresAt > now` at
sweep start is still present. -/
theorem sweep_membership (now : Int) (keys : List ApiKeyRecord)
    (r : ApiKeyRecord) :
    r ∈ autoDeleteExpired now keys ↔ r ∈ keys ∧ now < r.expiresAt := by
  simp [autoDeleteExpired, List.mem_filter]

/-- Witness for `sweep_membership`: the strictly-alive record survives a
sweep at `now = 5`. -/
theorem sweep_membership_witness :
    recAlive ∈ autoDeleteExpired 5 [recBoundary, recAlive] :=
  (sweep_membership 5 [recBoundary, recAlive] recAlive).mpr (by decide)

/-- **C5, counterexample.**  The claim says any create request with
`duration ≤ 0` fails with `InvalidInput` and adds no record; but the
handler's only input validation is JS truthiness (`!days || !devices`), so
`days = -1` (truthy) with `devices = 1` passes every check and appends a
record (an already-expired one) to the empty store. -/
theorem create_negative_days_cex :
    (createKey signModel "" 365 0 "id-neg" "GEN" [] (-1) 1 none none
        none).1 ≠ CreateResult.missingInput ∧
    (createKey signModel "" 365 0 "id-neg" "GEN" [] (-1) 1 none none
        none).1 ≠ CreateResult.maxDaysExceeded ∧
    (createKey signModel "" 365 0 "id-neg" "GEN" [] (-1) 1 none none
        none).1 ≠ CreateResult.duplicateCode ∧
    (createKey signModel "" 365 0 "id-neg" "GEN" [] (-1) 1 none none
        none).2.length = 1 := by
  decide

/-- **C5, amended.**  The create handler's input validation rejects with
`InvalidInput` (missing-input) exactly the requests whose `days` or
`devices` is JS-falsy (zero/missing), and then adds no record; a nonzero
negative duration or device count passes validation. -/
theorem create_validation (sign : String → String) (pp : String)
    (md now : Int) (gid gc : String) (keys : List KeyRecord)
    (days devices : Int) (ktype customKey password : Option String) :
    ((createKey sign pp md now gid gc keys days devices ktype customKey
        password).1 = CreateResult.missingInput ↔ (days = 0 ∨ devices = 0)) ∧
    (days = 0 ∨ devices = 0 →
      (createKey sign pp md now gid gc keys days devices ktype customKey
        password).2 = keys) := by
  constructor
  · by_cases h : days = 0 ∨ devices = 0
    · simp [createKey, h]
    · have hne : (createKey sign pp md now gid gc keys days devices ktype
          customKey password).1 ≠ CreateResult.missingInput := by
        intro hres
        simp only [createKey, if_neg h] at hres
        split at hres
        · simp at hres
        · split at hres
          · split at hres
            · simp at hres
            · split at hres <;> simp at hres
          · simp at hres
      exact iff_of_false hne h
  · intro h
    simp [createKey, h]

/-- Witness for `create_validation`: with `days = 0` the request is
rejected and the store stays empty. -/
theorem create_validation_witness :
    (createKey signModel "" 365 0 "id-w" "GENW" [] 0 1 none none none).2 =
      [] :=
  (create_validation signModel "" 365 0 "id-w" "GENW" [] 0 1 none none
    none).2 (Or.inl rfl)

/-- A properly created record with custom code "ABC". -/
def recABC : KeyRecord :=
  { recK with id := "id-abc", key_code := "ABC", signature := signModel "ABC",
              expires_at := 1000 }

/-- **C6, counterexample.**  The claim says a custom code already present
under case-insensitive comparison is rejected with `DuplicateCode`; but the
`/api/create-key` duplicate check is the exact comparison
`k.key_code === keyCode`, so with "ABC" stored, creating custom code "abc"
is not rejected and a second record is appended — the store now holds two
codes equal up to case. -/
theorem duplicate_case_sensitive_cex :
    (createKey signModel "" 365 0 "id-1" "G1" [recABC] 1 1 none (some "abc")
        none).1 ≠ CreateResult.duplicateCode ∧
    (createKey signModel "" 365 0 "id-1" "G1" [recABC] 1 1 none (some "abc")
        none).2.length = 2 := by
  decide

/-- **C6, amended.**  Duplicate detection for custom codes is exact
(case-sensitive) in the `/api/create-key` handler: the request fails with
`DuplicateCode` iff a record with exactly the trimmed custom code is
present, and a successful custom-code creation preserves exact pairwise
distinctness of stored codes.  Only the second variant's `/create` handler
case-normalizes: there the custom code is uppercased and rejected iff the
uppercased code is already present. -/
theorem duplicate_exact_match :
    (∀ (sign : String → String) (pp : String) (md now : Int)
        (gid gc : String) (keys : List KeyRecord) (days devices : Int)
        (ktype password : Option String) (c : String),
      days ≠ 0 → devices ≠ 0 →
      ¬ (days > md ∧ isAdminCheck pp password = false) → jsTrim c ≠ "" →
      ((createKey sign pp md now gid gc keys days devices ktype (some c)
          password).1 = CreateResult.duplicateCode ↔
        (findByCode keys (jsTrim c)).isSome = true) ∧
      ((findByCode keys (jsTrim c)).isSome = false →
        keys.Pairwise (fun a b => a.key_code ≠ b.key_code) →
        ((createKey sign pp md now gid gc keys days devices ktype (some c)
            password).2).Pairwise (fun a b => a.key_code ≠ b.key_code))) ∧
    (∀ (now : Int) (gc : String) (keys : List ApiKeyRecord) (owner : String)
        (duration : Int) (unit : String) (deviceLimit : Int) (c : String),
      owner ≠ "" → duration ≠ 0 → unit ≠ "" → c ≠ "" →
      ((createV2 now gc keys owner duration unit deviceLimit (some c)).1 =
          CreateV2Result.keyAlreadyExists ↔
        (keys.find? (fun k => decide (k.apiKey = jsToUpper c))).isSome =
          true)) := by
  constructor
  · intro sign pp md now gid gc keys days devices ktype password c hd hv
      hmax ht
    have hin : ¬ (days = 0 ∨ devices = 0) := by
      rintro (h | h) <;> simp_all
    constructor
    · simp only [createKey, if_neg hin, if_neg hmax, if_neg ht]
      by_cases hdup : (findByCode keys (jsTrim c)).isSome
      · simp [hdup]
      · simp [hdup]
    · intro hnodup hpw
      have hnone : keys.find? (fun k => decide (k.key_code = jsTrim c)) =
          none := by
        cases hfb : keys.find? (fun k => decide (k.key_code = jsTrim c)) with
        | none => rfl
        | some r => simp [findByCode, hfb] at hnodup
      simp only [createKey, if_neg hin, if_neg hmax, if_neg ht, findByCode,
        hnone, Option.isSome_none, Bool.false_eq_true, if_false]
      refine List.pairwise_append.mpr ⟨hpw, by simp, ?_⟩
      intro a ha b hb
      rw [List.mem_singleton] at hb
      subst hb
      intro hcontr
      simp only [createdRecord] at hcontr
      have hne := List.find?_eq_none.mp hnone a ha
      simp only [hcontr] at hne
      simp at hne
  · intro now gc keys owner duration unit deviceLimit c ho hdur hu hc
    have hin : ¬ (owner = "" ∨ duration = 0 ∨ unit = "") := by
      rintro (h | h | h) <;> simp_all
    simp only [createV2, if_neg hin, if_neg hc]
    by_cases hdup :
        (keys.find? (fun k => decide (k.apiKey = jsToUpper c))).isSome
    · simp [hdup]
    · simp [hdup]

/-- Witness for `duplicate_exact_match`: with "ABC" stored, the exact
custom code "ABC" is rejected as a duplicate by `/api/create-key`. -/
theorem duplicate_exact_match_witness :
    (createKey signModel "" 365 0 "id-2" "G2" [recABC] 1 1 none (some "ABC")
        none).1 = CreateResult.duplicateCode :=
  (duplicate_exact_match.1 signModel "" 365 0 "id-2" "G2" [recABC] 1 1 none
    none "ABC" (by decide) (by decide) (by decide) (by decide)).1.mpr
    (by decide)

/-- Looking a code up after `replaceFirst` with a record carrying that code:
the replacement is found exactly when some record with the code was there
before. -/
theorem findByCode_replaceFirst_self (keys : List KeyRecord) (code : String)
    (u : KeyRecord) (hu : u.key_code = code) :
    findByCode (replaceFirst keys code u) code =
      if (findByCode keys code).isSome then some u else none := by
  simp only [findByCode]
  induction keys with
  | nil => simp [replaceFirst]
  | cons k ks ih =>
    by_cases hk : k.key_code = code
    · simp [replaceFirst, hk, List.find?, hu]
    · simp [replaceFirst, hk, List.find?, ih]

/-- Inversion of a successful `/api/verify-key` call: the parameters were
present, the record was found, its signature and expiry passed, the bind
was not rejected, and the result payload and saved store are as
constructed. -/
theorem verifyKey_success_inv (sign : String → String) (now : Int)
    (keys : List KeyRecord) (key device_id : String) (e rem tot : Int)
    (h : (verifyKey sign now keys key device_id).1 =
      VerifyResult.success e rem tot) :
    key ≠ "" ∧ device_id ≠ "" ∧
    ∃ found, findByCode keys key = some found ∧
      sign found.key_code = found.signature ∧
      ¬ found.expires_at < now ∧
      ¬ (device_id ∉ found.devices ∧
          (found.devices.length : Int) ≥ found.allowed_devices) ∧
      e = found.expires_at ∧
      rem = found.allowed_devices -
        ((boundDevices found device_id).length : Int) ∧
      tot = found.total_verifications + 1 ∧
      (verifyKey sign now keys key device_id).2 =
        replaceFirst keys key (verifiedRecord now found device_id) := by
  by_cases hk : key = "" ∨ device_id = ""
  · simp [verifyKey, hk] at h
  · have hk1 : key ≠ "" := fun hh => hk (Or.inl hh)
    have hk2 : device_id ≠ "" := fun hh => hk (Or.inr hh)
    refine ⟨hk1, hk2, ?_⟩
    cases hfind : findByCode keys key with
    | none => simp [verifyKey, hk, hfind] at h
    | some found =>
      by_cases hsig : sign found.key_code = found.signature
      · by_cases hexp : found.expires_at < now
        · simp [verifyKey, hk, hfind, hsig, hexp] at h
        · by_cases hlim : device_id ∉ found.devices ∧
              (found.devices.length : Int) ≥ found.allowed_devices
          · simp [verifyKey, hk, hfind, hsig, hexp, hlim] at h
          · have hcalc : verifyKey sign now keys key device_id =
                (VerifyResult.success found.expires_at
                  (found.allowed_devices -
                    ((boundDevices found device_id).length : Int))
                  (found.total_verifications + 1),
                 replaceFirst keys key
                   (verifiedRecord now found device_id)) := by
              simp [verifyKey, hk, hfind, hsig, hexp, hlim, verifiedRecord]
            rw [hcalc] at h
            simp only [VerifyResult.success.injEq] at h
            exact ⟨found, rfl, hsig, hexp, hlim, h.1.symm, h.2.1.symm,
              h.2.2.symm, by rw [hcalc]⟩
      · simp [verifyKey, hk, hfind, hsig] at h

/-- **C8.**  Idempotent rebind: after a first successful verification of
`(key, device_id)`, verifying the same pair again — at any later moment
`now2` at which the key has not yet expired — succeeds again (same expiry
and devices-remaining payload, verification counter one higher) and leaves
the record's bound-device list, hence its size, unchanged. -/
theorem idempotent_rebind (sign : String → String) (now now2 : Int)
    (keys : List KeyRecord) (key device_id : String) (e rem tot : Int)
    (h : (verifyKey sign now keys key device_id).1 =
      VerifyResult.success e rem tot)
    (hexp2 : ¬ e < now2) :
    (verifyKey sign now2 (verifyKey sign now keys key device_id).2 key
        device_id).1 = VerifyResult.success e rem (tot + 1) ∧
    ((verifyKey sign now2 (verifyKey sign now keys key device_id).2 key
        device_id).2.find? (fun k => decide (k.key_code = key))).map
        (fun r => r.devices) =
      ((verifyKey sign now keys key device_id).2.find?
        (fun k => decide (k.key_code = key))).map (fun r => r.devices) := by
  obtain ⟨hk1, hk2, found, hfind, hsig, hexp, hlim, he, hrem, htot, hsnd⟩ :=
    verifyKey_success_inv sign now keys key device_id e rem tot h
  have hk : ¬ (key = "" ∨ device_id = "") := by
    rintro (hh | hh)
    · exact hk1 hh
    · exact hk2 hh
  have hfk : found.key_code = key := by
    have hp := List.find?_some (by simpa [findByCode] using hfind)
    simpa using hp
  set u := verifiedRecord now found device_id with hu_def
  have hukey : u.key_code = key := by
    rw [hu_def]; simpa [verifiedRecord] using hfk
  have husig : u.signature = found.signature := by
    rw [hu_def]; simp [verifiedRecord]
  have hucode : u.key_code = found.key_code := by
    rw [hu_def]; simp [verifiedRecord]
  have huexp : u.expires_at = found.expires_at := by
    rw [hu_def]; simp [verifiedRecord]
  have hualw : u.allowed_devices = found.allowed_devices := by
    rw [hu_def]; simp [verifiedRecord]
  have hutot : u.total_verifications = found.total_verifications + 1 := by
    rw [hu_def]; simp [verifiedRecord]
  have hudev : u.devices = boundDevices found device_id := by
    rw [hu_def]; simp [verifiedRecord]
  have humem : device_id ∈ u.devices := by
    rw [hudev]
    by_cases hmem : device_id ∈ found.devices <;> simp [boundDevices, hmem]
  generalize hks1 : (verifyKey sign now keys key device_id).2 = ks1 at hsnd ⊢
  have hfind2 : findByCode ks1 key = some u := by
    rw [hsnd, findByCode_replaceFirst_self keys key u hukey, hfind]
    simp
  have hsig2 : sign u.key_code = u.signature := by
    rw [hucode, husig]; exact hsig
  have hexp2' : ¬ u.expires_at < now2 := by
    rw [huexp, ← he]; exact hexp2
  have hlim2 : ¬ (device_id ∉ u.devices ∧
      (u.devices.length : Int) ≥ u.allowed_devices) := fun hc => hc.1 humem
  have hbound2 : boundDevices u device_id = u.devices := by
    simp [boundDevices, humem]
  have hu2dev : (verifiedRecord now2 u device_id).devices = u.devices := by
    simp [verifiedRecord, hbound2]
  have hu2key : (verifiedRecord now2 u device_id).key_code = key := by
    simpa [verifiedRecord] using hukey
  have hcalc2 : verifyKey sign now2 ks1 key device_id =
      (VerifyResult.success u.expires_at
          (u.allowed_devices - (u.devices.length : Int))
          (u.total_verifications + 1),
        replaceFirst ks1 key (verifiedRecord now2 u device_id)) := by
    have hstep : verifyKey sign now2 ks1 key device_id =
        (VerifyResult.success u.expires_at
            (u.allowed_devices -
              ((boundDevices u device_id).length : Int))
            (u.total_verifications + 1),
          replaceFirst ks1 key (verifiedRecord now2 u device_id)) := by
      simp [verifyKey, hk, hfind2, hsig2, hexp2', hlim2, verifiedRecord]
    rw [hstep, hbound2]
  have hpay : VerifyResult.success u.expires_at
      (u.allowed_devices - (u.devices.length : Int))
      (u.total_verifications + 1) = VerifyResult.success e rem (tot + 1) := by
    simp only [huexp, hualw, hutot, hudev, ← he, ← hrem, ← htot]
  constructor
  · rw [hcalc2]
    simpa using hpay
  · rw [hcalc2]
    have hL : findByCode (replaceFirst ks1 key
        (verifiedRecord now2 u device_id)) key =
        some (verifiedRecord now2 u device_id) := by
      rw [findByCode_replaceFirst_self ks1 key _ hu2key, hfind2]
      simp
    simp only [findByCode] at hL hfind2
    rw [hL, hfind2]
    simp [hu2dev]

/-- A live sample record: code "K", expiry 100, one device slot. -/
def recLive : KeyRecord := { recK with expires_at := 100 }

/-- Witness for `idempotent_rebind`: after `devA` successfully binds to the
fresh one-slot key "K", re-verifying the same pair at a later time before
expiry succeeds again and the stored device list is unchanged. -/
theorem idempotent_rebind_witness :
    (verifyKey signModel 6 (verifyKey signModel 5 [recLive] "K" "devA").2 "K"
        "devA").1 = VerifyResult.success 100 0 2 ∧
    ((verifyKey signModel 6 (verifyKey signModel 5 [recLive] "K" "devA").2 "K"
        "devA").2.find? (fun k => decide (k.key_code = "K"))).map
        (fun r => r.devices) =
      ((verifyKey signModel 5 [recLive] "K" "devA").2.find?
        (fun k => decide (k.key_code = "K"))).map (fun r => r.devices) :=
  idempotent_rebind signModel 5 6 [recLive] "K" "devA" 100 0 1 (by decide)
    (by decide)

/-- One store-mutating request of the AuthAPI v4 variant, with the values
the handler would draw from the clock and the generators. -/
inductive Op where
  | opVerify (key device_id : String) (now : Int)
  | opReset (key : String) (now : Int)
  | opDelete (key : String)
  | opExtend (key : String) (days : Int) (now : Int)
  | opUpdateTime (key : String) (days : Int)
      (new_expiration_date : Option Int) (now : Int)
  | opCreate (days devices : Int) (ktype customKey password : Option String)
      (genId genCode : String) (now : Int)
deriving Repr, DecidableEq

/-- The store after one request is handled. -/
def step (sign : String → String) (pp : String) (md : Int)
    (keys : List KeyRecord) : Op → List KeyRecord
  | .opVerify k d n => (verifyKey sign n keys k d).2
  | .opReset k n => (resetKey n keys k).2
  | .opDelete k => (deleteKey keys k).2
  | .opExtend k dys n => (extendKey n keys k dys).2
  | .opUpdateTime k dys nd n => (updateKeyTime n keys k dys nd).2
  | .opCreate dys dvs t c p gid gcode n =>
      (createKey sign pp md n gid gcode keys dys dvs t c p).2

/-- The store after a sequence of requests. -/
def runOps (sign : String → String) (pp : String) (md : Int)
    (keys : List KeyRecord) (ops : List Op) : List KeyRecord :=
  ops.foldl (step sign pp md) keys

/-- Whether an operation can move the expiry of, or (re)introduce, the
given code: an extend or update-time addressed to it, or a create whose
generated or trimmed custom code equals it. -/
def opTargetsCode (code : String) : Op → Bool
  | .opExtend k _ _ => decide (k = code)
  | .opUpdateTime k _ _ _ => decide (k = code)
  | .opCreate _ _ _ customKey _ _ gcode _ =>
      decide (gcode = code) ||
        (match customKey with
         | some c => decide (jsTrim c = code)
         | none => false)
  | _ => false

/-- A member of `replaceFirst keys code u` was in `keys` or is `u`. -/
theorem mem_replaceFirst (keys : List KeyRecord) (code : String)
    (u r : KeyRecord) (hr : r ∈ replaceFirst keys code u) :
    r ∈ keys ∨ r = u := by
  induction keys with
  | nil => simp [replaceFirst] at hr
  | cons k ks ih =>
    by_cases hk : k.key_code = code
    · rw [show replaceFirst (k :: ks) code u = u :: ks by
        simp [replaceFirst, hk]] at hr
      rcases List.mem_cons.mp hr with h | h
      · right; exact h
      · left; exact List.mem_cons_of_mem _ h
    · rw [show replaceFirst (k :: ks) code u = k :: replaceFirst ks code u by
        simp [replaceFirst, hk]] at hr
      rcases List.mem_cons.mp hr with h | h
      · left; exact h ▸ List.mem_cons_self _ _
      · rcases ih h with h2 | h2
        · left; exact List.mem_cons_of_mem _ h2
        · right; exact h2

/-- The record found for a code carries that code. -/
theorem findByCode_key (keys : List KeyRecord) (k : String)
    (found : KeyRecord) (hfind : findByCode keys k = some found) :
    found.key_code = k := by
  have hp := List.find?_some (by simpa [findByCode] using hfind)
  simpa using hp

/-- Replacing the first record of an unrelated code does not change what a
lookup finds. -/
theorem findByCode_replaceFirst_other (keys : List KeyRecord)
    (k code : String) (u : KeyRecord) (hukey : u.key_code = k)
    (hne : k ≠ code) :
    findByCode (replaceFirst keys k u) code = findByCode keys code := by
  have hck : ¬ code = k := fun hh => hne hh.symm
  simp only [findByCode]
  induction keys with
  | nil => simp [replaceFirst]
  | cons x xs ih =>
    by_cases hx : x.key_code = k
    · have hxc : ¬ x.key_code = code := by rw [hx]; exact hne
      have huc : ¬ u.key_code = code := by rw [hukey]; exact hne
      simp [replaceFirst, hx, List.find?, hxc, huc, hne, hck]
    · by_cases hc : x.key_code = code
      · simp [replaceFirst, hx, List.find?, hc, hne, hck]
      · simp [replaceFirst, hx, List.find?, hc, ih, hne, hck]

/-- After `delete-key`'s filter, a lookup of the deleted code finds
nothing. -/
theorem findByCode_filter_self (keys : List KeyRecord) (k : String) :
    findByCode (keys.filter (fun x => decide (¬ x.key_code = k))) k =
      none := by
  simp only [findByCode]
  rw [List.find?_eq_none]
  intro x hx
  have hmem := (List.mem_filter.mp hx).2
  simp at hmem ⊢
  exact hmem

/-- After `delete-key`'s filter, lookups of other codes are unchanged. -/
theorem findByCode_filter_ne (keys : List KeyRecord) (k code : String)
    (hne : k ≠ code) :
    findByCode (keys.filter (fun x => decide (¬ x.key_code = k))) code =
      findByCode keys code := by
  simp only [findByCode]
  induction keys with
  | nil => simp
  | cons x xs ih =>
    by_cases hx : x.key_code = k
    · have hxc : ¬ x.key_code = code := by rw [hx]; exact hne
      rw [List.filter_cons_of_neg (by simp [hx])]
      rw [ih, List.find?_cons_of_neg _ (by simp [hxc])]
    · rw [List.filter_cons_of_pos (by simp [hx])]
      by_cases hc : x.key_code = code
      · rw [List.find?_cons_of_pos _ (by simp [hc]),
            List.find?_cons_of_pos _ (by simp [hc])]
      · rw [List.find?_cons_of_neg _ (by simp [hc]),
            List.find?_cons_of_neg _ (by simp [hc])]
        exact ih

/-- Appending a record with a different code does not change what a lookup
finds. -/
theorem findByCode_append_single (keys : List KeyRecord) (r : KeyRecord)
    (code : String) (hne : ¬ r.key_code = code) :
    findByCode (keys ++ [r]) code = findByCode keys code := by
  simp only [findByCode]
  induction keys with
  | nil => simp [List.find?, hne]
  | cons x xs ih =>
    by_cases hc : x.key_code = code
    · simp [List.find?, hc]
    · simp [List.find?, hc, ih]

/-- The store saved by `/api/verify-key` is either untouched or the result
of replacing the found record — which then passed the expiry check and was
not bind-rejected — by its verified update. -/
theorem verifyKey_snd_cases (sign : String → String) (now : Int)
    (keys : List KeyRecord) (key device_id : String) :
    (verifyKey sign now keys key device_id).2 = keys ∨
    ∃ found, findByCode keys key = some found ∧
      ¬ found.expires_at < now ∧
      ¬ (device_id ∉ found.devices ∧
          (found.devices.length : Int) ≥ found.allowed_devices) ∧
      (verifyKey sign now keys key device_id).2 =
        replaceFirst keys key (verifiedRecord now found device_id) := by
  by_cases hk : key = "" ∨ device_id = ""
  · left; simp [verifyKey, hk]
  · cases hfind : findByCode keys key with
    | none => left; simp [verifyKey, hk, hfind]
    | some found =>
      by_cases hsig : sign found.key_code = found.signature
      · by_cases hexp : found.expires_at < now
        · left; simp [verifyKey, hk, hfind, hsig, hexp]
        · by_cases hlim : device_id ∉ found.devices ∧
              (found.devices.length : Int) ≥ found.allowed_devices
          · left; simp [verifyKey, hk, hfind, hsig, hexp, hlim]
          · right
            exact ⟨found, rfl, hexp, hlim,
              by simp [verifyKey, hk, hfind, hsig, hexp, hlim]⟩
      · left; simp [verifyKey, hk, hfind, hsig]

/-- The store saved by `/api/create-key` is either untouched or extended by
one `createdRecord` whose code is the generated one or the trimmed custom
one. -/
theorem createKey_snd_cases (sign : String → String) (pp : String)
    (md now : Int) (gid gc : String) (keys : List KeyRecord)
    (days devices : Int) (ktype customKey password : Option String) :
    (createKey sign pp md now gid gc keys days devices ktype customKey
      password).2 = keys ∨
    ∃ code tt adm cust,
      (code = gc ∨ ∃ c, customKey = some c ∧ code = jsTrim c) ∧
      (createKey sign pp md now gid gc keys days devices ktype customKey
        password).2 =
        keys ++ [createdRecord sign now gid code tt days devices adm cust] := by
  by_cases h0 : days = 0 ∨ devices = 0
  · left; simp [createKey, h0]
  · by_cases h1 : days > md ∧ isAdminCheck pp password = false
    · left; simp [createKey, h0, h1]
    · cases customKey with
      | none =>
        right
        exact ⟨gc,
          (match ktype with
            | some t => if t = "" then "KEY" else t
            | none => "KEY"),
          isAdminCheck pp password, false, Or.inl rfl,
          by simp [createKey, h0, h1]⟩
      | some c =>
        by_cases h2 : jsTrim c = ""
        · right
          exact ⟨gc,
            (match ktype with
              | some t => if t = "" then "KEY" else t
              | none => "KEY"),
            isAdminCheck pp password, decide (c ≠ ""), Or.inl rfl,
            by simp [createKey, h0, h1, h2]⟩
        · by_cases h3 : (findByCode keys (jsTrim c)).isSome
          · left; simp [createKey, h0, h1, h2, h3]
          · right
            exact ⟨jsTrim c,
              (match ktype with
                | some t => if t = "" then "KEY" else t
                | none => "KEY"),
              isAdminCheck pp password, decide (c ≠ ""),
              Or.inr ⟨c, rfl, rfl⟩,
              by simp [createKey, h0, h1, h2, h3]⟩

/-- The device-limit invariant of one record:
`devices.length <= allowed_devices`. -/
def deviceInv (r : KeyRecord) : Prop :=
  (r.devices.length : Int) ≤ r.allowed_devices

/-- The device-limit invariant over a whole store. -/
def storeInv (keys : List KeyRecord) : Prop := ∀ r ∈ keys, deviceInv r

/-- The amended side condition on one operation: a create request must ask
for a nonnegative device count (the handler accepts any truthy number). -/
def opDevicesOK : Op → Prop
  | .opCreate _ dvs _ _ _ _ _ _ => 0 ≤ dvs
  | _ => True

/-- A lookup hit is a member of the store satisfying the store invariant. -/
theorem deviceInv_of_find (keys : List KeyRecord) (code : String)
    (found : KeyRecord) (h : storeInv keys)
    (hfind : findByCode keys code = some found) : deviceInv found :=
  h found (List.mem_of_find?_eq_some (by simpa [findByCode] using hfind))

/-- Replacing one record by a record that itself satisfies the device
invariant preserves the store invariant. -/
theorem storeInv_replaceFirst (keys : List KeyRecord) (code : String)
    (u : KeyRecord) (h : storeInv keys) (hu : deviceInv u) :
    storeInv (replaceFirst keys code u) := by
  intro r hr
  rcases mem_replaceFirst _ _ _ _ hr with h2 | h2
  · exact h r h2
  · subst h2; exact hu

/-- **C2, counterexample.**  The claim says `devices.length <=
allowed_devices` holds for every record after every operation, create
included; but the create handler accepts the truthy device count `-1`
and builds a record with `allowed_devices = -1` and zero bound devices, so
the freshly created store already violates the bound. -/
theorem device_limit_cex :
    (createKey signModel "" 365 0 "id-c2" "GC2" [] 1 (-1) none none
        none).2.length = 1 ∧
    ((createKey signModel "" 365 0 "id-c2" "GC2" [] 1 (-1) none none
        none).2.all
      (fun r => decide ((r.devices.length : Int) ≤ r.allowed_devices))) =
      false := by
  decide

/-- **C2, amended.**  Provided every create request asks for a nonnegative
device count, each of the modelled store operations — verify/bind, reset,
delete, extend, update-time and create — preserves the device-limit
invariant `devices.length <= allowed_devices` for every record of the
store; and the second variant's expiry sweep preserves the corresponding
invariant `devices.length <= deviceLimit` as well. -/
theorem device_limit_preserved (sign : String → String) (pp : String)
    (md : Int) (keys : List KeyRecord) (op : Op)
    (h : storeInv keys) (hop : opDevicesOK op) :
    storeInv (step sign pp md keys op) ∧
    (∀ (now2 : Int) (ks : List ApiKeyRecord) (r : ApiKeyRecord),
      (∀ x ∈ ks, (x.devices.length : Int) ≤ x.deviceLimit) →
      r ∈ autoDeleteExpired now2 ks →
      (r.devices.length : Int) ≤ r.deviceLimit) := by
  constructor
  · cases op with
    | opVerify k d n =>
      rcases verifyKey_snd_cases sign n keys k d with
        hs | ⟨found, hfind, hexp, hlim, hs⟩
      · simpa only [step, hs] using h
      · simp only [step, hs]
        refine storeInv_replaceFirst keys k _ h ?_
        have hfi := deviceInv_of_find keys k found h hfind
        by_cases hmem : d ∈ found.devices
        · simpa [deviceInv, verifiedRecord, boundDevices, hmem] using hfi
        · have hlt : (found.devices.length : Int) < found.allowed_devices := by
            by_contra hge
            exact hlim ⟨hmem, not_lt.mp hge⟩
          simp only [deviceInv, verifiedRecord, boundDevices, if_neg hmem,
            List.length_append, List.length_singleton]
          push_cast
          omega
    | opReset k n =>
      cases hfind : findByCode keys k with
      | none => simpa only [step, resetKey, hfind] using h
      | some found =>
        simp only [step, resetKey, hfind]
        refine storeInv_replaceFirst keys k _ h ?_
        have hfi := deviceInv_of_find keys k found h hfind
        simp only [deviceInv] at hfi ⊢
        simp only [List.length_nil, Nat.cast_zero]
        omega
    | opDelete k =>
      cases hfind : findByCode keys k with
      | none => simpa only [step, deleteKey, hfind] using h
      | some found =>
        simp only [step, deleteKey, hfind]
        intro r hr
        exact h r (List.mem_of_mem_filter hr)
    | opExtend k dys n =>
      cases hfind : findByCode keys k with
      | none => simpa only [step, extendKey, hfind] using h
      | some found =>
        simp only [step, extendKey, hfind]
        refine storeInv_replaceFirst keys k _ h ?_
        have hfi := deviceInv_of_find keys k found h hfind
        simpa [deviceInv] using hfi
    | opUpdateTime k dys nd n =>
      cases hfind : findByCode keys k with
      | none => simpa only [step, updateKeyTime, hfind] using h
      | some found =>
        have hfi := deviceInv_of_find keys k found h hfind
        rcases nd with _ | d
        · by_cases hdy : dys = 0
          · simpa only [step, updateKeyTime, hfind, hdy, if_pos rfl] using h
          · simp only [step, updateKeyTime, hfind, if_neg hdy]
            refine storeInv_replaceFirst keys k _ h ?_
            simpa [deviceInv] using hfi
        · by_cases hd : d = 0
          · by_cases hdy : dys = 0
            · simpa only [step, updateKeyTime, hfind, hd, hdy, if_pos rfl]
                using h
            · simp only [step, updateKeyTime, hfind, hd, if_pos rfl,
                if_neg hdy]
              refine storeInv_replaceFirst keys k _ h ?_
              simpa [deviceInv] using hfi
          · simp only [step, updateKeyTime, hfind, if_neg hd]
            refine storeInv_replaceFirst keys k _ h ?_
            simpa [deviceInv] using hfi
    | opCreate dys dvs t c p gid gcode n =>
      rcases createKey_snd_cases sign pp md n gid gcode keys dys dvs t c p
        with hs | ⟨code, tt, adm, cust, _, hs⟩
      · simpa only [step, hs] using h
      · simp only [step, hs]
        intro r hr
        rcases List.mem_append.mp hr with h2 | h2
        · exact h r h2
        · rw [List.mem_singleton] at h2
          subst h2
          simp only [deviceInv, createdRecord, List.length_nil,
            Nat.cast_zero]
          simpa [opDevicesOK] using hop
  · intro now2 ks r hks hr
    exact hks r (List.mem_of_mem_filter hr)

/-- Witness for `device_limit_preserved`: binding a fresh device to the
one-slot key "K" keeps the store within its device limits. -/
theorem device_limit_preserved_witness :
    storeInv (step signModel "" 365 [recLive] (Op.opVerify "K" "devZ" 5)) :=
  (device_limit_preserved signModel "" 365 [recLive]
    (Op.opVerify "K" "devZ" 5)
    (by
      intro r hr
      rw [List.mem_singleton] at hr
      subst hr
      simp [deviceInv, recLive, recK])
    trivial).1

/-- The facts about a code that stay frozen while no operation targets it:
whatever a lookup finds for it carries the same signature and the same
expiry. -/
def codeFrozen (code sig : String) (e : Int) (keys : List KeyRecord) :
    Prop :=
  ∀ r, findByCode keys code = some r → r.signature = sig ∧ r.expires_at = e

/-- Replacing the found record of `k` by an update that keeps its code,
signature and expiry preserves `codeFrozen`, for any `k`. -/
theorem codeFrozen_replaceFirst (code sig : String) (e : Int)
    (keys : List KeyRecord) (k : String) (found u : KeyRecord)
    (h : codeFrozen code sig e keys)
    (hfind : findByCode keys k = some found)
    (hukey : u.key_code = k)
    (husig : u.signature = found.signature)
    (huexp : u.expires_at = found.expires_at) :
    codeFrozen code sig e (replaceFirst keys k u) := by
  by_cases hk : k = code
  · subst hk
    intro r hr
    rw [findByCode_replaceFirst_self keys k u hukey, hfind] at hr
    simp only [Option.isSome_some, if_pos rfl, if_true] at hr
    cases hr
    have hf := h found hfind
    exact ⟨husig.trans hf.1, huexp.trans hf.2⟩
  · intro r hr
    rw [findByCode_replaceFirst_other keys k code u hukey hk] at hr
    exact h r hr

/-- Replacing the found record of an unrelated code preserves
`codeFrozen`, whatever the update does. -/
theorem codeFrozen_replaceFirst_other (code sig : String) (e : Int)
    (keys : List KeyRecord) (k : String) (u : KeyRecord)
    (h : codeFrozen code sig e keys) (hukey : u.key_code = k)
    (hk : k ≠ code) :
    codeFrozen code sig e (replaceFirst keys k u) := by
  intro r hr
  rw [findByCode_replaceFirst_other keys k code u hukey hk] at hr
  exact h r hr

/-- Any single operation that does not target the code — no extend or
update-time addressed to it, no create that could (re)introduce it —
preserves `codeFrozen`. -/
theorem step_preserves_codeFrozen (sign : String → String) (pp : String)
    (md : Int) (code sig : String) (e : Int) (keys : List KeyRecord)
    (op : Op) (hop : opTargetsCode code op = false)
    (h : codeFrozen code sig e keys) :
    codeFrozen code sig e (step sign pp md keys op) := by
  cases op with
  | opVerify k d n =>
    rcases verifyKey_snd_cases sign n keys k d with
      hs | ⟨found, hfind, _, _, hs⟩
    · simpa only [step, hs] using h
    · simp only [step, hs]
      have hfk : found.key_code = k := findByCode_key keys k found hfind
      refine codeFrozen_replaceFirst code sig e keys k found _ h hfind ?_ ?_ ?_
      · simpa [verifiedRecord] using hfk
      · simp [verifiedRecord]
      · simp [verifiedRecord]
  | opReset k n =>
    cases hfind : findByCode keys k with
    | none => simpa only [step, resetKey, hfind] using h
    | some found =>
      simp only [step, resetKey, hfind]
      have hfk : found.key_code = k := findByCode_key keys k found hfind
      exact codeFrozen_replaceFirst code sig e keys k found _ h hfind
        (by simpa using hfk) (by simp) (by simp)
  | opDelete k =>
    cases hfind : findByCode keys k with
    | none => simpa only [step, deleteKey, hfind] using h
    | some found =>
      simp only [step, deleteKey, hfind]
      by_cases hk : k = code
      · subst hk
        intro r hr
        rw [findByCode_filter_self keys k] at hr
        cases hr
      · intro r hr
        rw [findByCode_filter_ne keys k code hk] at hr
        exact h r hr
  | opExtend k dys n =>
    have hk : k ≠ code := by simpa [opTargetsCode] using hop
    cases hfind : findByCode keys k with
    | none => simpa only [step, extendKey, hfind] using h
    | some found =>
      simp only [step, extendKey, hfind]
      have hfk : found.key_code = k := findByCode_key keys k found hfind
      exact codeFrozen_replaceFirst_other code sig e keys k _ h
        (by simpa using hfk) hk
  | opUpdateTime k dys nd n =>
    have hk : k ≠ code := by simpa [opTargetsCode] using hop
    cases hfind : findByCode keys k with
    | none => simpa only [step, updateKeyTime, hfind] using h
    | some found =>
      have hfk : found.key_code = k := findByCode_key keys k found hfind
      rcases nd with _ | d
      · by_cases hdy : dys = 0
        · simpa only [step, updateKeyTime, hfind, hdy, if_pos rfl] using h
        · simp only [step, updateKeyTime, hfind, if_neg hdy]
          exact codeFrozen_replaceFirst_other code sig e keys k _ h
            (by simpa using hfk) hk
      · by_cases hd : d = 0
        · by_cases hdy : dys = 0
          · simpa only [step, updateKeyTime, hfind, hd, hdy, if_pos rfl]
              using h
          · simp only [step, updateKeyTime, hfind, hd, if_pos rfl,
              if_neg hdy]
            exact codeFrozen_replaceFirst_other code sig e keys k _ h
              (by simpa using hfk) hk
        · simp only [step, updateKeyTime, hfind, if_neg hd]
          exact codeFrozen_replaceFirst_other code sig e keys k _ h
            (by simpa using hfk) hk
  | opCreate dys dvs t c p gid gcode n =>
    rcases createKey_snd_cases sign pp md n gid gcode keys dys dvs t c p
      with hs | ⟨code2, tt, adm, cust, hcode2, hs⟩
    · simpa only [step, hs] using h
    · simp only [step, hs]
      have hne : ¬ (createdRecord sign n gid code2 tt dys dvs adm
          cust).key_code = code := by
        simp only [createdRecord]
        simp only [opTargetsCode, Bool.or_eq_false_iff,
          decide_eq_false_iff_not] at hop
        rcases hcode2 with hgc | ⟨cc, hceq, hjc⟩
        · rw [hgc]; exact hop.1
        · subst hceq
          rw [hjc]
          have := hop.2
          simpa using this
      intro r hr
      rw [findByCode_append_single keys _ code hne] at hr
      exact h r hr

/-- `codeFrozen` survives any sequence of non-targeting operations. -/
theorem runOps_preserves_codeFrozen (sign : String → String) (pp : String)
    (md : Int) (code sig : String) (e : Int) :
    ∀ (ops : List Op) (keys : List KeyRecord),
      codeFrozen code sig e keys →
      (∀ op ∈ ops, opTargetsCode code op = false) →
      codeFrozen code sig e (runOps sign pp md keys ops) := by
  intro ops
  induction ops with
  | nil => intro keys h _; simpa [runOps] using h
  | cons op ops ih =>
    intro keys h hops
    simp only [runOps, List.foldl_cons]
    exact ih _
      (step_preserves_codeFrozen sign pp md code sig e keys op
        (hops op (List.mem_cons_self _ _)) h)
      (fun o ho => hops o (List.mem_cons_of_mem _ ho))

/-- Inversion of a `KEY_EXPIRED` verification outcome: the parameters were
present, the record was found with a valid signature, and its stored
expiry — returned in the payload — lies strictly before `now`. -/
theorem verifyKey_expired_inv (sign : String → String) (now : Int)
    (keys : List KeyRecord) (key device_id : String) (e : Int)
    (h : (verifyKey sign now keys key device_id).1 =
      VerifyResult.keyExpired e) :
    key ≠ "" ∧ device_id ≠ "" ∧
    ∃ found, findByCode keys key = some found ∧
      sign found.key_code = found.signature ∧
      found.expires_at = e ∧ e < now := by
  by_cases hk : key = "" ∨ device_id = ""
  · simp [verifyKey, hk] at h
  · have hk1 : key ≠ "" := fun hh => hk (Or.inl hh)
    have hk2 : device_id ≠ "" := fun hh => hk (Or.inr hh)
    refine ⟨hk1, hk2, ?_⟩
    cases hfind : findByCode keys key with
    | none => simp [verifyKey, hk, hfind] at h
    | some found =>
      by_cases hsig : sign found.key_code = found.signature
      · by_cases hexp : found.expires_at < now
        · have hcalc : verifyKey sign now keys key device_id =
              (VerifyResult.keyExpired found.expires_at, keys) := by
            simp [verifyKey, hk, hfind, hsig, hexp]
          rw [hcalc] at h
          simp only [VerifyResult.keyExpired.injEq] at h
          exact ⟨found, rfl, hsig, h, h ▸ hexp⟩
        · by_cases hlim : device_id ∉ found.devices ∧
              (found.devices.length : Int) ≥ found.allowed_devices
          · simp [verifyKey, hk, hfind, hsig, hexp, hlim] at h
          · simp [verifyKey, hk, hfind, hsig, hexp, hlim] at h
      · simp [verifyKey, hk, hfind, hsig] at h

/-- **C9, counterexample.**  The claim allows only `KeyExpired` or
`KeyNotFound` at any later time when no extend/update-expiry intervenes;
but deleting the expired key and re-creating it under the same custom code
— neither operation an extend or update-expiry — makes a later
verification succeed. -/
def cexOps : List Op :=
  [Op.opDelete "K", Op.opCreate 1 1 none (some "K") none "id-9" "G9" 30]

/-- The counterexample run for C9: at `T = 20` the key "K" (expiry 10)
verifies as `KEY_EXPIRED`; the interposed trace contains no extend and no
update-time; yet at `T2 = 40` verification of "K" succeeds. -/
theorem expiry_monotonicity_cex :
    (verifyKey signModel 20 [recK] "K" "dev").1 =
      VerifyResult.keyExpired 10 ∧
    (cexOps.all (fun op => match op with
      | Op.opExtend _ _ _ => false
      | Op.opUpdateTime _ _ _ _ => false
      | _ => true)) = true ∧
    (verifyKey signModel 40 (runOps signModel "" 365 [recK] cexOps) "K"
        "dev").1 = VerifyResult.success 86400030 0 1 := by
  decide

/-- **C9, amended.**  If verification of a code returns `KEY_EXPIRED`
(payload `e`) at time `T`, and none of the operations performed in between
is an extend or update-time addressed to that code nor a create that could
(re)introduce it, then verification at any `T2 ≥ T` returns `KEY_EXPIRED`
with the same stale expiry, or `KEY_NOT_FOUND` if the record was deleted —
never success. -/
theorem expired_stays_expired (sign : String → String) (pp : String)
    (md : Int) (keys : List KeyRecord) (key dev dev2 : String)
    (T T2 e : Int) (ops : List Op)
    (h : (verifyKey sign T keys key dev).1 = VerifyResult.keyExpired e)
    (hT : T ≤ T2) (hdev2 : dev2 ≠ "")
    (hops : ∀ op ∈ ops, opTargetsCode key op = false) :
    (verifyKey sign T2 (runOps sign pp md keys ops) key dev2).1 =
        VerifyResult.keyExpired e ∨
    (verifyKey sign T2 (runOps sign pp md keys ops) key dev2).1 =
        VerifyResult.keyNotFound := by
  obtain ⟨hk1, _, found, hfind, hsig, heq, hlt⟩ :=
    verifyKey_expired_inv sign T keys key dev e h
  have hfk : found.key_code = key := findByCode_key keys key found hfind
  have hfrozen0 : codeFrozen key found.signature e keys := by
    intro r hr
    rw [hfind] at hr
    cases hr
    exact ⟨rfl, heq⟩
  have hfrozen := runOps_preserves_codeFrozen sign pp md key
    found.signature e ops keys hfrozen0 hops
  have hk : ¬ (key = "" ∨ dev2 = "") := by
    rintro (hh | hh)
    · exact hk1 hh
    · exact hdev2 hh
  cases hfind2 : findByCode (runOps sign pp md keys ops) key with
  | none =>
    right
    simp [verifyKey, hk, hfind2]
  | some r =>
    left
    obtain ⟨hrsig, hrexp⟩ := hfrozen r hfind2
    have hrk : r.key_code = key :=
      findByCode_key (runOps sign pp md keys ops) key r hfind2
    have hrsig2 : sign r.key_code = r.signature := by
      rw [hrk, hrsig, ← hfk]
      exact hsig
    have he2 : e < T2 := by omega
    simp [verifyKey, hk, hfind2, hrsig2, hrexp, he2]

/-- A harmless trace for the C9 witness: a device reset and a failing
re-verification, neither of which touches the expiry of "K". -/
def wOps : List Op := [Op.opReset "K" 21, Op.opVerify "K" "devX" 22]

/-- Witness for `expired_stays_expired`: key "K" expired at `T = 20` stays
`KEY_EXPIRED` (or would be `KEY_NOT_FOUND`) at `T2 = 25` across a reset and
a re-verification. -/
theorem expired_stays_expired_witness :
    (verifyKey signModel 25 (runOps signModel "" 365 [recK] wOps) "K"
        "dev2").1 = VerifyResult.keyExpired 10 ∨
    (verifyKey signModel 25 (runOps signModel "" 365 [recK] wOps) "K"
        "dev2").1 = VerifyResult.keyNotFound :=
  expired_stays_expired signModel "" 365 [recK] "K" "dev" "dev2" 20 25 10
    wOps (by decide) (by decide) (by decide) (by decide)
